import Mathlib

/-!
Verification development for the subtitle timing engine (`subsync.py`,
`delaycalc.py`): a shallow embedding of the timecode codec, the regex-based
timecode scanner, the validity guard, the resynchronizer and the batch
orchestrator, together with proofs and refutations of the specified
properties.

Modelling conventions:
* documents are `List Char`; millisecond counts are `ℕ`/`ℤ`; the Python
  floats (delay, growth factor) are modelled as exact rationals `ℚ`, and the
  one genuinely real-valued operation (`math.pow` with a fractional
  exponent in `calc_delay`) as `Real.rpow`;
* Python exceptions (ValueError from `strptime`, AttributeError from
  `re.search(...).group()` on no match, IndexError, ZeroDivisionError) are
  modelled as `none` of an `Option` result;
* the file store is a map from path strings to contents, and `open(name)`
  resolves `name` against the process working directory `cwd`.
-/

/-- Character for a single decimal digit, as produced by `strftime`. -/
def dChar : ℕ → Char
  | 0 => '0'
  | 1 => '1'
  | 2 => '2'
  | 3 => '3'
  | 4 => '4'
  | 5 => '5'
  | 6 => '6'
  | 7 => '7'
  | 8 => '8'
  | 9 => '9'
  | _ => '?'

/-- Numeric value of a decimal digit character, as used by `int()` parsing. -/
def dVal (c : Char) : ℕ := c.toNat - 48

/-- Character class relevant to the timecode pattern
`\d\d:\d\d:\d\d,\d\d\d`: 0 = decimal digit, 1 = colon, 2 = comma, 3 = other. -/
def charClass (c : Char) : ℕ :=
  if c.isDigit then 0 else if c = ':' then 1 else if c = ',' then 2 else 3

/-- Class string of the 12-character timecode pattern. -/
def winPattern : List ℕ := [0, 0, 1, 0, 0, 1, 0, 0, 2, 0, 0, 0]

/-- Whether a character list is exactly one match of the timecode regex
`\d{2}:\d{2}:\d{2},\d{3}` (as a full, 12-character match). -/
def isWin12 (l : List Char) : Bool := l.map charClass == winPattern

/-- Model of `datetime.datetime.strptime(s, "%H:%M:%S,%f")` composed with
`calc_ms`: parses a 12-character matched window into a millisecond count.
`strptime` builds a `datetime`, so it raises ValueError (modelled `none`)
unless hour is 00–23, minute 00–59 and second 00–59; the three fractional
digits give microseconds `fff000`, and `calc_ms` divides back to `fff` ms. -/
def parse_timecode : List Char → Option ℕ
  | [h1, h2, c1, m1, m2, c2, s1, s2, c3, f1, f2, f3] =>
    if h1.isDigit && h2.isDigit && c1 == ':' && m1.isDigit && m2.isDigit && c2 == ':' &&
       s1.isDigit && s2.isDigit && c3 == ',' && f1.isDigit && f2.isDigit && f3.isDigit then
      let h := dVal h1 * 10 + dVal h2
      let m := dVal m1 * 10 + dVal m2
      let s := dVal s1 * 10 + dVal s2
      let f := dVal f1 * 100 + dVal f2 * 10 + dVal f3
      if h ≤ 23 && m ≤ 59 && s ≤ 59 then some (((h * 60 + m) * 60 + s) * 1000 + f) else none
    else none
  | _ => none

/-- Model of `(datetime).strftime("%H:%M:%S,%f")[:-3]` applied to a
time-of-day of `us` microseconds since midnight (`us < 86400000000`):
two-digit hour/minute/second, then the first three digits of the
six-digit microsecond field, i.e. whole milliseconds. -/
def fmtFromUs (us : ℕ) : List Char :=
  let h := us / 3600000000
  let m := us / 60000000 % 60
  let s := us / 1000000 % 60
  let f := us / 1000 % 1000
  [dChar (h / 10), dChar (h % 10), ':', dChar (m / 10), dChar (m % 10), ':',
   dChar (s / 10), dChar (s % 10), ',', dChar (f / 100), dChar (f / 10 % 10), dChar (f % 10)]

/-- Formatting a signed millisecond count the way the code does: the value is
added to `datetime(1900, 1, 1)` as a `timedelta`, the date part absorbs whole
days (so the time of day is the count modulo 24 hours, also for negative
values), and the result is printed with `strftime("%H:%M:%S,%f")[:-3]`. -/
def fmt_timecode (ms : ℤ) : List Char :=
  fmtFromUs ((ms * 1000 % 86400000000).toNat)

/-- Round-half-even to an integer, as `datetime.timedelta` rounds a
fractional microsecond total. -/
def roundHalfEven (q : ℚ) : ℤ :=
  let n := ⌊q⌋
  let r := q - n
  if r < 1 / 2 then n else if 1 / 2 < r then n + 1 else if n % 2 = 0 then n else n + 1

/-- Fuel-indexed scan of `re.findall(r'\d{2}:\d{2}:\d{2},\d{3}', data)`:
leftmost, non-overlapping matches; after a match the scan resumes right
after it. -/
def findallF : ℕ → List Char → List (List Char)
  | 0, _ => []
  | _ + 1, [] => []
  | n + 1, x :: xs =>
    if isWin12 ((x :: xs).take 12) then
      (x :: xs).take 12 :: findallF n ((x :: xs).drop 12)
    else
      findallF n xs

/-- All matches of the timecode regex in a document, in document order. -/
def findall (l : List Char) : List (List Char) := findallF l.length l

/-- Fuel-indexed removal of every timecode match from a document. -/
def stripF : ℕ → List Char → List Char
  | 0, l => l
  | _ + 1, [] => []
  | n + 1, x :: xs =>
    if isWin12 ((x :: xs).take 12) then
      stripF n ((x :: xs).drop 12)
    else
      x :: stripF n xs

/-- A document with every timecode match removed (the non-timecode
remainder). -/
def stripTC (l : List Char) : List Char := stripF l.length l

/-- Fuel-indexed model of `re.sub(r'\d{2}:\d{2}:\d{2},\d{3}', repl, data)`
with a fallible replacement function: each leftmost non-overlapping match is
replaced by `f` applied to the matched window; a raised exception in the
replacement (modelled `none`) propagates. -/
def reSubMF (f : List Char → Option (List Char)) : ℕ → List Char → Option (List Char)
  | 0, l => some l
  | _ + 1, [] => some []
  | n + 1, x :: xs =>
    if isWin12 ((x :: xs).take 12) then
      (f ((x :: xs).take 12)).bind fun r =>
        (reSubMF f n ((x :: xs).drop 12)).map (r ++ ·)
    else
      (reSubMF f n xs).map (x :: ·)

/-- Replace every timecode match in a document using `f`. -/
def reSubM (f : List Char → Option (List Char)) (l : List Char) : Option (List Char) :=
  reSubMF f l.length l

/-- Model of `get_delayed_time(time_str, delay, growth)` from `subsync.py`:
parse the matched window (hour 00–23 or ValueError), compute
`delay * growth ** ms`, convert to a rounded microsecond `timedelta`, add it
to the parsed `datetime`, and print the resulting time of day (days wrap
silently into the date part). -/
def get_delayed_time (w : List Char) (delay growth : ℚ) : Option (List Char) :=
  (parse_timecode w).map fun (ms : ℕ) =>
    fmtFromUs ((((ms : ℤ) * 1000 + roundHalfEven (delay * growth ^ ms * 1000)) %
      86400000000).toNat)

/-- Model of `is_delay_valid(delay, data)` from `subsync.py`: find the first
timecode match (`re.search(...).group()` raises AttributeError when there is
none, modelled `none`), parse it, and test `calc_ms(first) + delay >= 0`.
The growth factor is not consulted. -/
def is_delay_valid (delay : ℚ) (data : List Char) : Option Bool :=
  match findall data with
  | [] => none
  | w :: _ => (parse_timecode w).map fun (ms : ℕ) => decide ((ms : ℚ) + delay ≥ 0)

/-- The substitution pass of `sync_sub`: rewrite every timecode match with
`get_delayed_time`. -/
def resync (delay growth : ℚ) (data : List Char) : Option (List Char) :=
  reSubM (fun w => get_delayed_time w delay growth) data

/-- Content-level behaviour of `sync_sub` on one document:
`none` = uncaught exception; `some none` = guard rejection (error printed,
nothing written); `some (some out)` = the rewritten text to be written. -/
def syncContent (delay growth : ℚ) (data : List Char) : Option (Option (List Char)) :=
  match is_delay_valid delay data with
  | none => none
  | some false => some none
  | some true =>
    match resync delay growth data with
    | none => none
    | some out => some (some out)

/-- A file store: contents by path, `none` for a missing file. -/
abbrev Store := String → Option (List Char)

/-- Resolution of a file name passed to `open` against the process working
directory. -/
def resolve (cwd name : String) : String := cwd ++ "/" ++ name

/-- Store after writing `v` at path `k`. -/
def writeStore (st : Store) (k : String) (v : List Char) : Store :=
  fun q => if q = k then some v else st q

/-- Model of `sync_sub(file, delay, growth)`: read the file (the name is
resolved against the working directory), run the guard, and either return
with no write, rewrite the file in place, or raise (modelled `none`). -/
def sync_sub (cwd : String) (delay growth : ℚ) (st : Store) (file : String) : Option Store :=
  match st (resolve cwd file) with
  | none => none
  | some data =>
    match syncContent delay growth data with
    | none => none
    | some none => some st
    | some (some out) => some (writeStore st (resolve cwd file) out)

/-- Model of the `for file in subs: sync_sub(...)` loop in `main`: documents
are processed in order; an uncaught exception (`none` from `sync_sub`)
aborts the loop, leaving the store as it was at that point and the flag
`false`; `true` means the loop ran to completion. -/
def runBatch (cwd : String) (delay growth : ℚ) : Store → List String → Store × Bool
  | st, [] => (st, true)
  | st, f :: fs =>
    match sync_sub cwd delay growth st f with
    | none => (st, false)
    | some st2 => runBatch cwd delay growth st2 fs

/-- Supported subtitle extensions (`SUPP_SUB_EXTS`). -/
def SUPP_SUB_EXTS : List String := [".srt"]

/-- Model of `os.path.splitext(p)[1]`: the extension starting at the last
dot of the basename, where leading dots of the basename do not count. -/
def extOf (p : String) : String :=
  let base := (p.toList.reverse.takeWhile (· ≠ '/')).reverse
  let stem := base.dropWhile (· = '.')
  if stem.contains '.' then
    String.mk ('.' :: (stem.reverse.takeWhile (· ≠ '.')).reverse)
  else ""

/-- A batch target as seen by `get_sub_files`: a regular file, a directory
together with its `os.listdir` entry names (bare names, not joined paths),
or neither. -/
inductive Target where
  | file (path : String)
  | dir (path : String) (entries : List String)
  | neither

/-- Model of `get_sub_files(tgt)`: a single file is its own working set; for
a directory the working set is the list of bare entry names with a supported
extension; otherwise `None`. -/
def get_sub_files : Target → Option (List String)
  | .file p => some [p]
  | .dir _ entries => some (entries.filter fun fn => SUPP_SUB_EXTS.contains (extOf fn))
  | .neither => none

/-- Model of `growth_type(x)` from `subsync.py`: the argparse validator for
the growth factor; values below 1.0 raise ArgumentTypeError. -/
def growth_type (x : ℚ) : Option ℚ := if x < 1 then none else some x

/-- Model of `main()` in `subsync.py` with the confirmation answer supplied
as a boolean: resolve the target; an empty or missing working set just
reports; a declined confirmation returns before any `sync_sub` call;
otherwise the batch loop runs. -/
def main_model (cwd : String) (tgt : Target) (delay growth : ℚ) (confirm : Bool)
    (st : Store) : Store × Bool :=
  match get_sub_files tgt with
  | none => (st, true)
  | some [] => (st, true)
  | some (f :: fs) => if confirm then runBatch cwd delay growth st (f :: fs) else (st, true)

/-- Model of `calc_delay(data, time1, time2)` from `delaycalc.py`, split
into its exactly-computable parts: the initial delay `time1 - subs[0]`, the
ratio `delay1 / delay2` with `delay2 = time2 - subs[-2]` (the second-to-last
match), and the exponent `1 / (time1 - time2)`. The error paths are modelled
as `none`: fewer than two matches raises IndexError, an out-of-range window
raises ValueError in `strptime`, `delay1 / delay2` raises ZeroDivisionError
when `delay2 = 0`, `1 / (time1 - time2)` raises ZeroDivisionError when
`time1 = time2`, and `math.pow` raises ValueError on a negative ratio with a
non-integral exponent and on a zero ratio with a negative exponent. (Float
overflow in `math.pow` is outside the exact rational model.) -/
def calc_delay_parts (data : List Char) (time1 time2 : ℚ) : Option (ℚ × ℚ × ℚ) :=
  let subs := findall data
  if 2 ≤ subs.length then
    match parse_timecode (subs.getD 0 []), parse_timecode (subs.getD (subs.length - 2) []) with
    | some s1, some s2 =>
      if time2 - (s2 : ℚ) = 0 then none
      else if time1 - time2 = 0 then none
      else if (time1 - s1) / (time2 - s2) < 0 ∧ (1 / (time1 - time2)).den ≠ 1 then none
      else if (time1 - s1) / (time2 - s2) = 0 ∧ 1 / (time1 - time2) < 0 then none
      else some (time1 - s1, (time1 - s1) / (time2 - s2), 1 / (time1 - time2))
    | some _, none => none
    | none, _ => none
  else none

/-- Model of `calc_delay`: the returned pair
`(delay1, math.pow(delay1 / delay2, 1 / (time1 - time2)))`, with the real
power modelled by `Real.rpow`. The domain gates in `calc_delay_parts`
exclude exactly `math.pow`'s ValueError inputs, and on the remaining domain
(positive base; zero base with positive exponent; negative base with an
integral exponent, where `Real.rpow` coincides with the integer power)
`Real.rpow` agrees with `math.pow`. -/
noncomputable def calc_delay (data : List Char) (time1 time2 : ℚ) : Option (ℚ × ℝ) :=
  (calc_delay_parts data time1 time2).map fun p => (p.1, ((p.2.1 : ℚ) : ℝ) ^ ((p.2.2 : ℚ) : ℝ))

/-- Concrete store with one document (first timecode at one second). -/
def storeA : Store :=
  fun k => if k = "/w/a.srt" then some ("00:00:01,000".toList) else none

/-- Concrete store with one two-cue document whose timecodes are at one and
two milliseconds. -/
def storeB : Store :=
  fun k => if k = "/w/a.srt" then some ("00:00:00,001 --> 00:00:00,002".toList) else none

/-- Concrete store with a document containing no timecode at all, next to a
well-formed document. -/
def storeC : Store :=
  fun k =>
    if k = "/w/bad.srt" then some ("no timecodes here".toList)
    else if k = "/w/good.srt" then some ("00:00:00,002".toList)
    else none

/-- Concrete store with two documents whose first timecodes are at one and
five seconds. -/
def storeD : Store :=
  fun k =>
    if k = "/w/a.srt" then some ("00:00:01,000".toList)
    else if k = "/w/b.srt" then some ("00:00:05,000".toList)
    else none

/-- Concrete store with one document whose only timecode has hour field 25
(matched by the regex, rejected by `strptime`). -/
def storeE : Store :=
  fun k => if k = "/w/a.srt" then some ("25:00:00,000".toList) else none

section

attribute [local semireducible] Rat.add Rat.sub Rat.mul Rat.inv Rat.ofScientific

example : findall ("a00:00:00,001b00:00:00,002c00:00:00,005".toList) =
    ["00:00:00,001".toList, "00:00:00,002".toList, "00:00:00,005".toList] := by decide

example : parse_timecode ("00:00:10,000".toList) = some 10000 := by decide

example : parse_timecode ("24:00:00,000".toList) = none := by decide

example : fmt_timecode 86400000 = "00:00:00,000".toList := by decide

example : get_delayed_time ("00:00:00,001".toList) (-1) 2 = some ("23:59:59,999".toList) := by
  decide

example : resync 1 1 ("1\n00:00:00,002 --> 00:00:00,004\nHi\n".toList) =
    some ("1\n00:00:00,003 --> 00:00:00,005\nHi\n".toList) := by decide

example : extOf "bad.srt" = ".srt" := by decide

example : calc_delay_parts ("00:00:10,000 --> 00:05:00,000".toList) 11000 301000 =
    some (1000, 1 / 291, -(1 / 290000)) := by decide

theorem dChar_isDigit {d : ℕ} (h : d < 10) : (dChar d).isDigit = true := by
  interval_cases d <;> decide

theorem dVal_dChar {d : ℕ} (h : d < 10) : dVal (dChar d) = d := by
  interval_cases d <;> decide

theorem charClass_dChar {d : ℕ} (h : d < 10) : charClass (dChar d) = 0 := by
  interval_cases d <;> decide

theorem isWin12_classes {l : List Char} (h : isWin12 l = true) : l.map charClass = winPattern := by
  simpa [isWin12] using h

theorem isWin12_length {l : List Char} (h : isWin12 l = true) : l.length = 12 := by
  have h2 : (l.map charClass).length = winPattern.length := by rw [isWin12_classes h]
  simpa [winPattern] using h2

theorem win_take_append {r : List Char} (t : List Char) (h : isWin12 r = true) :
    (r ++ t).take 12 = r ∧ (r ++ t).drop 12 = t :=
  ⟨List.take_left' (isWin12_length h), List.drop_left' (isWin12_length h)⟩

theorem fmtFromUs_win (us : ℕ) (h : us < 86400000000) : isWin12 (fmtFromUs us) = true := by
  have h1 : us / 3600000000 / 10 < 10 := by omega
  have h2 : us / 3600000000 % 10 < 10 := by omega
  have h3 : us / 60000000 % 60 / 10 < 10 := by omega
  have h4 : us / 60000000 % 60 % 10 < 10 := by omega
  have h5 : us / 1000000 % 60 / 10 < 10 := by omega
  have h6 : us / 1000000 % 60 % 10 < 10 := by omega
  have h7 : us / 1000 % 1000 / 100 < 10 := by omega
  have h8 : us / 1000 % 1000 / 10 % 10 < 10 := by omega
  have h9 : us / 1000 % 1000 % 10 < 10 := by omega
  simp only [isWin12, fmtFromUs, List.map_cons, List.map_nil, charClass_dChar h1,
    charClass_dChar h2, charClass_dChar h3, charClass_dChar h4, charClass_dChar h5,
    charClass_dChar h6, charClass_dChar h7, charClass_dChar h8, charClass_dChar h9]
  decide

theorem findallF_fuel : ∀ n m (l : List Char), l.length ≤ n → l.length ≤ m →
    findallF n l = findallF m l := by
  intro n
  induction n with
  | zero =>
    intro m l h1 _
    have : l = [] := List.length_eq_zero.mp (Nat.le_zero.mp h1)
    subst this
    cases m <;> rfl
  | succ n ih =>
    intro m l h1 h2
    cases l with
    | nil => cases m <;> rfl
    | cons x xs =>
      cases m with
      | zero => simp at h2
      | succ m =>
        simp only [findallF]
        cases hw : isWin12 ((x :: xs).take 12) with
        | true =>
          simp only [if_true]
          congr 1
          apply ih
          · simp only [List.length_drop, List.length_cons]
            simp only [List.length_cons] at h1
            omega
          · simp only [List.length_drop, List.length_cons]
            simp only [List.length_cons] at h2
            omega
        | false =>
          simp only [Bool.false_eq_true, if_false]
          apply ih
          · simp only [List.length_cons] at h1; omega
          · simp only [List.length_cons] at h2; omega

theorem stripF_fuel : ∀ n m (l : List Char), l.length ≤ n → l.length ≤ m →
    stripF n l = stripF m l := by
  intro n
  induction n with
  | zero =>
    intro m l h1 _
    have : l = [] := List.length_eq_zero.mp (Nat.le_zero.mp h1)
    subst this
    cases m <;> rfl
  | succ n ih =>
    intro m l h1 h2
    cases l with
    | nil => cases m <;> rfl
    | cons x xs =>
      cases m with
      | zero => simp at h2
      | succ m =>
        simp only [stripF]
        cases hw : isWin12 ((x :: xs).take 12) with
        | true =>
          simp only [if_true]
          apply ih
          · simp only [List.length_drop, List.length_cons]
            simp only [List.length_cons] at h1
            omega
          · simp only [List.length_drop, List.length_cons]
            simp only [List.length_cons] at h2
            omega
        | false =>
          simp only [Bool.false_eq_true, if_false]
          congr 1
          apply ih
          · simp only [List.length_cons] at h1; omega
          · simp only [List.length_cons] at h2; omega

theorem reSubMF_fuel (f : List Char → Option (List Char)) :
    ∀ n m (l : List Char), l.length ≤ n → l.length ≤ m →
    reSubMF f n l = reSubMF f m l := by
  intro n
  induction n with
  | zero =>
    intro m l h1 _
    have : l = [] := List.length_eq_zero.mp (Nat.le_zero.mp h1)
    subst this
    cases m <;> rfl
  | succ n ih =>
    intro m l h1 h2
    cases l with
    | nil => cases m <;> rfl
    | cons x xs =>
      cases m with
      | zero => simp at h2
      | succ m =>
        simp only [reSubMF]
        cases hw : isWin12 ((x :: xs).take 12) with
        | true =>
          simp only [if_true]
          rw [ih m ((x :: xs).drop 12)]
          · simp only [List.length_drop, List.length_cons]
            simp only [List.length_cons] at h1
            omega
          · simp only [List.length_drop, List.length_cons]
            simp only [List.length_cons] at h2
            omega
        | false =>
          simp only [Bool.false_eq_true, if_false]
          rw [ih m xs]
          · simp only [List.length_cons] at h1; omega
          · simp only [List.length_cons] at h2; omega

theorem findall_nil : findall [] = [] := rfl

theorem findall_win {l : List Char} (h : isWin12 (l.take 12) = true) :
    findall l = l.take 12 :: findall (l.drop 12) := by
  cases l with
  | nil => exact absurd h (by decide)
  | cons x xs =>
    show findallF (xs.length + 1) (x :: xs) = _
    simp only [findallF, h, if_true]
    congr 1
    apply findallF_fuel
    · simp only [List.length_drop, List.length_cons]; omega
    · simp only [List.length_drop, List.length_cons]; omega

theorem findall_not {x : Char} {xs : List Char} (h : isWin12 ((x :: xs).take 12) = false) :
    findall (x :: xs) = findall xs := by
  show findallF (xs.length + 1) (x :: xs) = _
  simp only [findallF, h, Bool.false_eq_true, if_false]
  rfl

theorem stripTC_nil : stripTC [] = [] := rfl

theorem stripTC_win {l : List Char} (h : isWin12 (l.take 12) = true) :
    stripTC l = stripTC (l.drop 12) := by
  cases l with
  | nil => exact absurd h (by decide)
  | cons x xs =>
    show stripF (xs.length + 1) (x :: xs) = _
    simp only [stripF, h, if_true]
    apply stripF_fuel
    · simp only [List.length_drop, List.length_cons]; omega
    · simp only [List.length_drop, List.length_cons]; omega

theorem stripTC_not {x : Char} {xs : List Char} (h : isWin12 ((x :: xs).take 12) = false) :
    stripTC (x :: xs) = x :: stripTC xs := by
  show stripF (xs.length + 1) (x :: xs) = _
  simp only [stripF, h, Bool.false_eq_true, if_false]
  rfl

theorem reSubM_nil (f : List Char → Option (List Char)) : reSubM f [] = some [] := rfl

theorem reSubM_win (f : List Char → Option (List Char)) {l : List Char}
    (h : isWin12 (l.take 12) = true) :
    reSubM f l = (f (l.take 12)).bind fun r => (reSubM f (l.drop 12)).map (r ++ ·) := by
  cases l with
  | nil => exact absurd h (by decide)
  | cons x xs =>
    have hb : ((x :: xs).drop 12).length ≤ xs.length := by
      simp only [List.length_drop, List.length_cons]
      omega
    show reSubMF f (xs.length + 1) (x :: xs) = _
    simp only [reSubMF, h, if_true]
    rw [reSubMF_fuel f xs.length ((x :: xs).drop 12).length ((x :: xs).drop 12) hb (le_refl _)]
    rfl

theorem reSubM_not (f : List Char → Option (List Char)) {x : Char} {xs : List Char}
    (h : isWin12 ((x :: xs).take 12) = false) :
    reSubM f (x :: xs) = (reSubM f xs).map (x :: ·) := by
  show reSubMF f (xs.length + 1) (x :: xs) = _
  simp only [reSubMF, h, Bool.false_eq_true, if_false]
  rfl

/-- Core preservation property of the substitution scan: when every
replacement the scan produces is itself a well-formed 12-character timecode
window, the output document has the same character-class string as the
input, its match list is exactly the image of the input's match list under
the replacement function, and the non-timecode remainders are identical. -/
theorem reSubM_props (f : List Char → Option (List Char))
    (hf : ∀ w r, f w = some r → isWin12 r = true) :
    ∀ n (l out : List Char), l.length ≤ n → reSubM f l = some out →
      l.map charClass = out.map charClass ∧
      (findall l).mapM f = some (findall out) ∧
      stripTC out = stripTC l := by
  intro n
  induction n with
  | zero =>
    intro l out h1 hrun
    have : l = [] := List.length_eq_zero.mp (Nat.le_zero.mp h1)
    subst this
    rw [reSubM_nil] at hrun
    cases hrun
    exact ⟨rfl, rfl, rfl⟩
  | succ n ih =>
    intro l out h1 hrun
    cases l with
    | nil =>
      rw [reSubM_nil] at hrun
      cases hrun
      exact ⟨rfl, rfl, rfl⟩
    | cons x xs =>
      cases hw : isWin12 ((x :: xs).take 12) with
      | true =>
        rw [reSubM_win f hw] at hrun
        rcases hfw : f ((x :: xs).take 12) with _ | r
        · rw [hfw] at hrun; cases hrun
        rw [hfw] at hrun
        simp only [Option.some_bind] at hrun
        rcases hrec : reSubM f ((x :: xs).drop 12) with _ | out'
        · rw [hrec] at hrun; cases hrun
        rw [hrec] at hrun
        simp only [Option.map_some'] at hrun
        cases hrun
        have hwr : isWin12 r = true := hf _ _ hfw
        have hdroplen : ((x :: xs).drop 12).length ≤ n := by
          simp only [List.length_drop, List.length_cons]
          simp only [List.length_cons] at h1
          omega
        obtain ⟨ihcls, ihmap, ihstrip⟩ := ih _ _ hdroplen hrec
        have hra := win_take_append out' hwr
        have houtwin : isWin12 ((r ++ out').take 12) = true := by rw [hra.1]; exact hwr
        refine ⟨?_, ?_, ?_⟩
        · have hsplit : x :: xs = (x :: xs).take 12 ++ (x :: xs).drop 12 :=
            (List.take_append_drop 12 (x :: xs)).symm
          rw [hsplit, List.map_append, List.map_append, isWin12_classes hw,
            isWin12_classes hwr, ihcls]
        · rw [findall_win hw, findall_win houtwin, hra.1, hra.2]
          simp only [List.mapM_cons, hfw, ihmap]
          rfl
        · rw [stripTC_win houtwin, hra.2, ihstrip, stripTC_win hw]
      | false =>
        rw [reSubM_not f hw] at hrun
        rcases hrec : reSubM f xs with _ | out''
        · rw [hrec] at hrun; cases hrun
        rw [hrec] at hrun
        simp only [Option.map_some'] at hrun
        cases hrun
        have hlen : xs.length ≤ n := by
          simp only [List.length_cons] at h1; omega
        obtain ⟨ihcls, ihmap, ihstrip⟩ := ih _ _ hlen hrec
        have hw' : isWin12 ((x :: out'').take 12) = false := by
          have hcls2 : ((x :: out'').take 12).map charClass =
              ((x :: xs).take 12).map charClass := by
            rw [List.map_take, List.map_take, List.map_cons, List.map_cons, ← ihcls]
          rw [isWin12, hcls2, ← isWin12]
          exact hw
        refine ⟨?_, ?_, ?_⟩
        · simp only [List.map_cons, ihcls]
        · rw [findall_not hw, findall_not hw', ihmap]
        · rw [stripTC_not hw', stripTC_not hw, ihstrip]

theorem get_delayed_time_win {w r : List Char} {d g : ℚ}
    (h : get_delayed_time w d g = some r) : isWin12 r = true := by
  rcases hp : parse_timecode w with _ | ms
  · simp [get_delayed_time, hp] at h
  simp only [get_delayed_time, hp, Option.map_some', Option.some.injEq] at h
  rw [← h]
  apply fmtFromUs_win
  have h1 := Int.emod_nonneg ((ms : ℤ) * 1000 + roundHalfEven (d * g ^ ms * 1000))
    (show (86400000000 : ℤ) ≠ 0 by decide)
  have h2 := Int.emod_lt_of_pos ((ms : ℤ) * 1000 + roundHalfEven (d * g ^ ms * 1000))
    (show (0 : ℤ) < 86400000000 by decide)
  omega

theorem parse_timecode_digits (a b c d e f g h i : ℕ)
    (ha : a < 10) (hb : b < 10) (hc : c < 10) (hd : d < 10) (he : e < 10)
    (hf : f < 10) (hg : g < 10) (hh : h < 10) (hi : i < 10)
    (hH : a * 10 + b ≤ 23) (hM : c * 10 + d ≤ 59) (hS : e * 10 + f ≤ 59) :
    parse_timecode [dChar a, dChar b, ':', dChar c, dChar d, ':', dChar e, dChar f, ',',
      dChar g, dChar h, dChar i] =
      some ((((a * 10 + b) * 60 + (c * 10 + d)) * 60 + (e * 10 + f)) * 1000 +
        (g * 100 + h * 10 + i)) := by
  unfold parse_timecode
  simp [dChar_isDigit ha, dChar_isDigit hb, dChar_isDigit hc,
    dChar_isDigit hd, dChar_isDigit he, dChar_isDigit hf, dChar_isDigit hg,
    dChar_isDigit hh, dChar_isDigit hi, dVal_dChar ha, dVal_dChar hb, dVal_dChar hc,
    dVal_dChar hd, dVal_dChar he, dVal_dChar hf, dVal_dChar hg, dVal_dChar hh,
    dVal_dChar hi, hH, hM, hS]

theorem parse_fmtFromUs (us : ℕ) (hus : us < 86400000000) :
    parse_timecode (fmtFromUs us) = some (us / 1000) := by
  have h1 : us / 3600000000 / 10 < 10 := by omega
  have h2 : us / 3600000000 % 10 < 10 := by omega
  have h3 : us / 60000000 % 60 / 10 < 10 := by omega
  have h4 : us / 60000000 % 60 % 10 < 10 := by omega
  have h5 : us / 1000000 % 60 / 10 < 10 := by omega
  have h6 : us / 1000000 % 60 % 10 < 10 := by omega
  have h7 : us / 1000 % 1000 / 100 < 10 := by omega
  have h8 : us / 1000 % 1000 / 10 % 10 < 10 := by omega
  have h9 : us / 1000 % 1000 % 10 < 10 := by omega
  have hH : us / 3600000000 / 10 * 10 + us / 3600000000 % 10 ≤ 23 := by omega
  have hM : us / 60000000 % 60 / 10 * 10 + us / 60000000 % 60 % 10 ≤ 59 := by omega
  have hS : us / 1000000 % 60 / 10 * 10 + us / 1000000 % 60 % 10 ≤ 59 := by omega
  show parse_timecode [dChar (us / 3600000000 / 10), dChar (us / 3600000000 % 10), ':',
    dChar (us / 60000000 % 60 / 10), dChar (us / 60000000 % 60 % 10), ':',
    dChar (us / 1000000 % 60 / 10), dChar (us / 1000000 % 60 % 10), ',',
    dChar (us / 1000 % 1000 / 100), dChar (us / 1000 % 1000 / 10 % 10),
    dChar (us / 1000 % 1000 % 10)] = some (us / 1000)
  rw [parse_timecode_digits _ _ _ _ _ _ _ _ _ h1 h2 h3 h4 h5 h6 h7 h8 h9 hH hM hS]
  congr 1
  omega

/-- C1 counterexample: the claim asserts a returned model for every
document with at least two matches and every `time1 < time2`, but for the
document `00:00:01,000 00:00:02,000` (two matches, so `subs[-2] = subs[0]`
parses to 1000 ms) and anchors 500/1000, `delay2 = 1000 - 1000 = 0` and
`delay1 / delay2` raises ZeroDivisionError: the estimator crashes instead
of returning `(delay1, (delay1/delay2) ^ (1/(time1-time2)))`. -/
theorem delay_estimator_div_zero_cex :
    2 ≤ (findall ("00:00:01,000 00:00:02,000".toList)).length ∧
    (500 : ℚ) < 1000 ∧
    calc_delay ("00:00:01,000 00:00:02,000".toList) 500 1000 = none := by
  refine ⟨by decide, by decide, ?_⟩
  have hp : calc_delay_parts ("00:00:01,000 00:00:02,000".toList) 500 1000 = none := by decide
  simp only [calc_delay, hp, Option.map_none']

/-- C1 amended: for every document with at least two timecode matches and
anchor times `time1 < time2` such that the computation stays off the
program's error paths — `delay2 = time2 - subtitle_ms_2` nonzero, and the
ratio/exponent pair inside `math.pow`'s domain (a negative ratio only with
an integral exponent, no zero ratio with a negative exponent) —
`calc_delay` takes the first match as `subtitle_ms_1`, the second-to-last
match as `subtitle_ms_2`, computes `delay1 = time1 - subtitle_ms_1` and
`delay2 = time2 - subtitle_ms_2`, and returns
`(delay1, (delay1 / delay2) ^ (1 / (time1 - time2)))` — the exponent
denominator uses the real-world anchor times, not the subtitle-internal
times. On `delay2 = 0` or outside `math.pow`'s domain the program raises
(ZeroDivisionError / ValueError) instead of returning a model. -/
theorem delay_estimator_uses_anchor_times (data : List Char) (time1 time2 : ℚ)
    (subs : List (List Char)) (s1 s2 : ℕ)
    (hs : findall data = subs) (hlen : 2 ≤ subs.length)
    (h1 : parse_timecode (subs.getD 0 []) = some s1)
    (h2 : parse_timecode (subs.getD (subs.length - 2) []) = some s2)
    (hlt : time1 < time2)
    (hd2 : time2 - (s2 : ℚ) ≠ 0)
    (hdom1 : (time1 - (s1 : ℚ)) / (time2 - (s2 : ℚ)) < 0 → (1 / (time1 - time2)).den = 1)
    (hdom2 : ¬((time1 - (s1 : ℚ)) / (time2 - (s2 : ℚ)) = 0 ∧ 1 / (time1 - time2) < 0)) :
    calc_delay data time1 time2 =
      some (time1 - (s1 : ℚ),
        (((time1 - (s1 : ℚ)) / (time2 - (s2 : ℚ)) : ℚ) : ℝ) ^
          (((1 / (time1 - time2) : ℚ) : ℝ))) := by
  have hne : ¬(time1 - time2 = 0) := sub_ne_zero.mpr (ne_of_lt hlt)
  have hg1 : ¬((time1 - (s1 : ℚ)) / (time2 - (s2 : ℚ)) < 0 ∧
      (1 / (time1 - time2)).den ≠ 1) := fun hab => hab.2 (hdom1 hab.1)
  have hp : calc_delay_parts data time1 time2 =
      some (time1 - (s1 : ℚ), (time1 - (s1 : ℚ)) / (time2 - (s2 : ℚ)), 1 / (time1 - time2)) := by
    unfold calc_delay_parts
    rw [hs]
    simp only [hlen, if_true, h1, h2]
    rw [if_neg hd2, if_neg hne, if_neg hg1, if_neg hdom2]
  simp only [calc_delay, hp, Option.map_some']

/-- C1 amended witness: a three-match document evaluated at concrete
anchors, with all the domain side conditions exercised. -/
theorem delay_estimator_uses_anchor_times_witness :
    calc_delay ("a00:00:00,001b00:00:00,002c00:00:00,005".toList) 2000 3000 =
      some (2000 - ((1 : ℕ) : ℚ),
        (((2000 - ((1 : ℕ) : ℚ)) / (3000 - ((2 : ℕ) : ℚ)) : ℚ) : ℝ) ^
          (((1 / ((2000 : ℚ) - 3000) : ℚ) : ℝ))) :=
  delay_estimator_uses_anchor_times _ 2000 3000
    ["00:00:00,001".toList, "00:00:00,002".toList, "00:00:00,005".toList] 1 2
    (by decide) (by decide) (by decide) (by decide) (by decide) (by decide) (by decide)
    (by decide)

/-- C2 counterexample: for the document whose matches are exactly
`00:00:10,000` and `00:05:00,000`, the second-to-last match is the first
one again (`subs[-2] = subs[0]` for a two-element list), so the growth
factor is `(1000 / 291000) ^ (1 / (11000 - 301000)) = 291 ^ (1/290000)`,
not `1.0`; the result is not `(1000, 1.0)`. -/
theorem two_occurrence_scenario_cex :
    calc_delay ("00:00:10,000 --> 00:05:00,000".toList) 11000 301000 ≠
      some (1000, (1 : ℝ)) := by
  have hp : calc_delay_parts ("00:00:10,000 --> 00:05:00,000".toList) 11000 301000 =
      some (1000, 1 / 291, -(1 / 290000)) := by decide
  intro hcontra
  simp only [calc_delay, hp, Option.map_some', Option.some.injEq, Prod.mk.injEq] at hcontra
  obtain ⟨-, h2⟩ := hcontra
  have hgt : 1 < (((1 / 291 : ℚ)) : ℝ) ^ ((-(1 / 290000) : ℚ) : ℝ) := by
    rw [Real.one_lt_rpow_iff_of_pos (by push_cast; norm_num)]
    right
    constructor
    · push_cast
      norm_num
    · push_cast
      norm_num
  rw [h2] at hgt
  exact lt_irrefl 1 hgt

/-- C2 amended: with a third match appended (the final cue's end time), the
second-to-last match is `00:05:00,000`, and the scenario produces exactly
`initial_delay_ms = 1000` and `growth_factor = 1.0`; with only the two
listed matches the growth factor is `291 ^ (1/290000) ≠ 1.0`. -/
theorem two_occurrence_scenario_amended :
    calc_delay ("00:00:10,000 --> 00:05:00,000\n00:06:00,000".toList) 11000 301000 =
      some (1000, (1 : ℝ)) := by
  have hp : calc_delay_parts ("00:00:10,000 --> 00:05:00,000\n00:06:00,000".toList)
      11000 301000 = some (1000, 1, -(1 / 290000)) := by decide
  simp only [calc_delay, hp, Option.map_some', Rat.cast_one, Real.one_rpow]

/-- C9 counterexample: the estimator can derive a growth factor strictly
below 1.0 — here the document's matches are `00:00:00,000`, `00:00:01,000`,
`00:10:00,000` and the anchors 3000/3500 give
`growth = (3000/2500) ^ (1/(3000-3500)) = (6/5) ^ (-1/500) < 1`. -/
theorem estimator_growth_lt_one_cex :
    calc_delay ("00:00:00,000 00:00:01,000 00:10:00,000".toList) 3000 3500 =
      some (3000, (((6 / 5 : ℚ)) : ℝ) ^ ((-(1 / 500) : ℚ) : ℝ)) ∧
    (((6 / 5 : ℚ)) : ℝ) ^ ((-(1 / 500) : ℚ) : ℝ) < 1 := by
  constructor
  · have hp : calc_delay_parts ("00:00:00,000 00:00:01,000 00:10:00,000".toList) 3000 3500 =
        some (3000, 6 / 5, -(1 / 500)) := by decide
    simp only [calc_delay, hp, Option.map_some']
  · apply Real.rpow_lt_one_of_one_lt_of_neg
    · push_cast
      norm_num
    · push_cast
      norm_num

/-- C9 amended: only directly constructed models are guaranteed the
invariant — the argparse validator `growth_type` accepts exactly the values
`≥ 1.0` (and returns them unchanged), while estimator-derived models can
have `growth_factor < 1.0`. -/
theorem growth_type_min (x y : ℚ) (h : growth_type x = some y) : 1 ≤ y ∧ y = x := by
  by_cases hx : x < 1
  · simp [growth_type, hx] at h
  · simp only [growth_type, hx, if_false] at h
    cases h
    exact ⟨not_lt.mp hx, rfl⟩

/-- C9 amended witness: the validator accepts 3/2. -/
theorem growth_type_min_witness : 1 ≤ (3 / 2 : ℚ) ∧ (3 / 2 : ℚ) = 3 / 2 :=
  growth_type_min (3 / 2) (3 / 2) (by decide)

theorem mapM_option_length {α β : Type} (f : α → Option β) :
    ∀ (l : List α) (l2 : List β), l.mapM f = some l2 → l2.length = l.length := by
  intro l
  induction l with
  | nil =>
    intro l2 h
    simp only [List.mapM_nil, Option.pure_def, Option.some.injEq] at h
    subst h
    rfl
  | cons a as ih =>
    intro l2 h
    rw [List.mapM_cons] at h
    rcases ha : f a with _ | b <;> rw [ha] at h
    · simp only [Option.pure_def, Option.bind_eq_bind, Option.none_bind] at h
      cases h
    · simp only [Option.pure_def, Option.bind_eq_bind, Option.some_bind] at h
      rcases hmb : as.mapM f with _ | bs <;> rw [hmb] at h
      · simp only [Option.none_bind] at h
        cases h
      · simp only [Option.some_bind, Option.some.injEq] at h
        subst h
        simp only [List.length_cons, ih bs hmb]

theorem is_delay_valid_eq (d : ℚ) (data w : List Char) (ws : List (List Char)) (ms1 : ℕ)
    (hfind : findall data = w :: ws) (hparse : parse_timecode w = some ms1) :
    is_delay_valid d data = some (decide ((ms1 : ℚ) + d ≥ 0)) := by
  unfold is_delay_valid
  rw [hfind]
  show (parse_timecode w).map (fun (ms : ℕ) => decide ((ms : ℚ) + d ≥ 0)) =
    some (decide ((ms1 : ℚ) + d ≥ 0))
  rw [hparse]
  rfl

theorem is_delay_valid_false_iff (d : ℚ) (data w : List Char) (ws : List (List Char)) (ms1 : ℕ)
    (hfind : findall data = w :: ws) (hparse : parse_timecode w = some ms1) :
    is_delay_valid d data = some false ↔ (ms1 : ℚ) + d < 0 := by
  rw [is_delay_valid_eq d data w ws ms1 hfind hparse]
  simp [not_le]

theorem syncContent_reject_iff (d g : ℚ) (data : List Char) :
    syncContent d g data = some none ↔ is_delay_valid d data = some false := by
  unfold syncContent
  rcases hv : is_delay_valid d data with _ | b
  · simp
  · cases b
    · simp
    · rcases hr : resync d g data with _ | out <;> simp

theorem sync_sub_guard_reject (cwd : String) (d g : ℚ) (st : Store) (f : String)
    (data w : List Char) (ws : List (List Char)) (ms1 : ℕ)
    (hst : st (resolve cwd f) = some data) (hfind : findall data = w :: ws)
    (hparse : parse_timecode w = some ms1) (hneg : (ms1 : ℚ) + d < 0) :
    sync_sub cwd d g st f = some st := by
  have hc : syncContent d g data = some none :=
    (syncContent_reject_iff d g data).mpr
      ((is_delay_valid_false_iff d data w ws ms1 hfind hparse).mpr hneg)
  simp only [sync_sub, hst, hc]

/-- C3 counterexample: the claimed reject-iff fails when the first timecode
occurrence has an hour field of 24 or more. The document `25:00:00,000` has
exactly one occurrence, whose millisecond value in the spec's data model is
90000000; with delay −100000000 the underflow condition
`first_subtitle_ms + initial_delay_ms < 0` holds, yet the code does not
report delay underflow and return — `strptime`'s `%H` field rejects 25 and
the uncaught ValueError inside `is_delay_valid` crashes the call (modelled
`none`): no rejection report, no write, no returned store. -/
theorem validity_guard_hour_overflow_cex :
    (findall ("25:00:00,000".toList)).length = 1 ∧
    parse_timecode ("25:00:00,000".toList) = none ∧
    (90000000 : ℚ) + (-100000000) < 0 ∧
    is_delay_valid (-100000000) ("25:00:00,000".toList) = none ∧
    syncContent (-100000000) 1 ("25:00:00,000".toList) = none ∧
    sync_sub "/w" (-100000000) 1 storeE "a.srt" = none := by
  refine ⟨by decide, by decide, by decide, by decide, by decide, rfl⟩

/-- C3 amended: restricted to documents whose first timecode occurrence is
parseable by the datetime-based codec (hour 00–23): then the guard rejects
— reporting delay underflow and performing no write — exactly when
`ms1 + delay < 0`, and the test involves only the constant initial delay
(the growth factor `g` is arbitrary on both sides of the equivalence). When
the first occurrence has an hour field of 24 or more, `is_delay_valid`
instead raises an uncaught ValueError: no underflow report and no write,
but a crash rather than a rejection. -/
theorem validity_guard_constant_term (d g : ℚ) (data w : List Char)
    (ws : List (List Char)) (ms1 : ℕ) (cwd f : String) (st : Store)
    (hfind : findall data = w :: ws) (hparse : parse_timecode w = some ms1)
    (hst : st (resolve cwd f) = some data) :
    (is_delay_valid d data = some false ↔ (ms1 : ℚ) + d < 0) ∧
    (syncContent d g data = some none ↔ (ms1 : ℚ) + d < 0) ∧
    ((ms1 : ℚ) + d < 0 → sync_sub cwd d g st f = some st) := by
  refine ⟨is_delay_valid_false_iff d data w ws ms1 hfind hparse,
    (syncContent_reject_iff d g data).trans
      (is_delay_valid_false_iff d data w ws ms1 hfind hparse),
    fun hneg => sync_sub_guard_reject cwd d g st f data w ws ms1 hst hfind hparse hneg⟩

/-- C3 witness: document `00:00:01,000`, delay −2000. -/
theorem validity_guard_constant_term_witness :
    (is_delay_valid (-2000) ("00:00:01,000".toList) = some false ↔
      ((1000 : ℕ) : ℚ) + (-2000) < 0) ∧
    (syncContent (-2000) 1 ("00:00:01,000".toList) = some none ↔
      ((1000 : ℕ) : ℚ) + (-2000) < 0) ∧
    (((1000 : ℕ) : ℚ) + (-2000) < 0 →
      sync_sub "/w" (-2000) 1 storeA "a.srt" = some storeA) :=
  validity_guard_constant_term (-2000) 1 ("00:00:01,000".toList) ("00:00:01,000".toList)
    [] 1000 "/w" "a.srt" storeA (by decide) (by decide) (by decide)

/-- C4 counterexample: with delay −1 and growth 2 on the document
`00:00:00,001 --> 00:00:00,002` the guard passes (1 − 1 = 0 ≥ 0), both
growth-adjusted delayed values are negative, and `sync_sub` raises no error:
it writes the wrapped timecodes `23:59:59,999` and `23:59:59,998` in their
place. -/
theorem negative_delay_wraps_cex :
    ((sync_sub "/w" (-1) 2 storeB "a.srt").map fun st => st "/w/a.srt") =
      some (some ("23:59:59,999 --> 23:59:59,998".toList)) ∧
    (1 : ℤ) * 1000 + roundHalfEven ((-1) * 2 ^ (1 : ℕ) * 1000) < 0 := by
  refine ⟨by decide, by decide⟩

/-- C4 amended: when the growth-adjusted delayed value of an occurrence is
negative, the resynchronizer does not fail loudly: it succeeds and produces
the delayed time wrapped modulo 24 hours, which is what gets written in
place of that occurrence. -/
theorem negative_delay_wraps (w : List Char) (d g : ℚ) (ms : ℕ)
    (hparse : parse_timecode w = some ms)
    (hneg : (ms : ℤ) * 1000 + roundHalfEven (d * g ^ ms * 1000) < 0) :
    get_delayed_time w d g =
      some (fmtFromUs ((((ms : ℤ) * 1000 + roundHalfEven (d * g ^ ms * 1000)) %
        86400000000).toNat)) := by
  simp only [get_delayed_time, hparse, Option.map_some']

/-- C4 amended witness: occurrence at 1 ms, delay −1, growth 2. -/
theorem negative_delay_wraps_witness :
    get_delayed_time ("00:00:00,001".toList) (-1) 2 =
      some (fmtFromUs (((((1 : ℕ) : ℤ) * 1000 + roundHalfEven ((-1) * 2 ^ (1 : ℕ) * 1000)) %
        86400000000).toNat)) :=
  negative_delay_wraps _ (-1) 2 1 (by decide) (by decide)

/-- C5: whenever the resynchronizer produces an output document, the
output's match list is the positionwise image of the input's match list
(same count and relative order), and stripping all timecode matches from
input and output leaves byte-identical remainders. -/
theorem resync_preserves_structure (d g : ℚ) (data out : List Char)
    (h : resync d g data = some out) :
    (findall data).mapM (fun w => get_delayed_time w d g) = some (findall out) ∧
    (findall out).length = (findall data).length ∧
    stripTC out = stripTC data := by
  have hf : ∀ w r, get_delayed_time w d g = some r → isWin12 r = true :=
    fun w r hh => get_delayed_time_win hh
  obtain ⟨hcls, hmap, hstrip⟩ := reSubM_props _ hf data.length data out (le_refl _) h
  exact ⟨hmap, mapM_option_length _ _ _ hmap, hstrip⟩

/-- C5 witness: a small cue with surrounding text, delay 1 ms, growth 1. -/
theorem resync_preserves_structure_witness :
    (findall ("1\n00:00:00,002 --> 00:00:00,004\nHi\n".toList)).mapM
      (fun w => get_delayed_time w 1 1) =
      some (findall ("1\n00:00:00,003 --> 00:00:00,005\nHi\n".toList)) ∧
    (findall ("1\n00:00:00,003 --> 00:00:00,005\nHi\n".toList)).length =
      (findall ("1\n00:00:00,002 --> 00:00:00,004\nHi\n".toList)).length ∧
    stripTC ("1\n00:00:00,003 --> 00:00:00,005\nHi\n".toList) =
      stripTC ("1\n00:00:00,002 --> 00:00:00,004\nHi\n".toList) :=
  resync_preserves_structure 1 1 _ _ (by decide)

/-- C6 counterexample: at `ms = 86400000` (24 hours, inside the claimed
range `[0, 99*3600*1000 - 1]`), formatting wraps modulo 24 hours to
`00:00:00,000`, so the round trip yields 0 instead of 86400000; moreover a
timecode with hour field 24 is rejected by the parser (strptime bounds
hours to 0–23), so hours of 24 and above are not handled. -/
theorem codec_roundtrip_cex :
    parse_timecode (fmt_timecode 86400000) = some 0 ∧
    (0 : ℕ) ≠ 86400000 ∧
    parse_timecode ("24:00:00,000".toList) = none := by
  refine ⟨by decide, by decide, by decide⟩

/-- C6 amended: the format/parse round trip holds exactly below one day:
for every `ms` in `[0, 24*3600*1000)`, parsing the formatted timecode
returns `ms`; from 24 hours on the formatter wraps modulo 24 hours and the
parser rejects hour fields above 23. -/
theorem codec_roundtrip_day (ms : ℕ) (h : ms < 86400000) :
    parse_timecode (fmt_timecode (ms : ℤ)) = some ms := by
  have hemod : ((ms : ℤ) * 1000) % 86400000000 = (ms : ℤ) * 1000 :=
    Int.emod_eq_of_lt (by positivity) (by omega)
  rw [fmt_timecode, hemod]
  have htn : ((ms : ℤ) * 1000).toNat = ms * 1000 := by omega
  rw [htn, parse_fmtFromUs (ms * 1000) (by omega)]
  congr 1
  omega

/-- C6 amended witness: a value with nontrivial hour, minute, second and
millisecond digits round-trips. -/
theorem codec_roundtrip_day_witness :
    parse_timecode (fmt_timecode ((45296789 : ℕ) : ℤ)) = some 45296789 :=
  codec_roundtrip_day 45296789 (by decide)

/-- C7 counterexample: in the working set `[bad.srt, good.srt]` where
`bad.srt` contains no parseable timecode, `re.search(...).group()` in the
guard raises, and the uncaught exception aborts the whole batch: the loop
stops with the store unchanged, and `good.srt` — which a direct `sync_sub`
call would have rewritten to `00:00:01,002` — is never processed. -/
theorem batch_abort_cex :
    runBatch "/w" 1000 1 storeC ["bad.srt", "good.srt"] = (storeC, false) ∧
    ((sync_sub "/w" 1000 1 storeC "good.srt").map fun st => st "/w/good.srt") =
      some (some ("00:00:01,002".toList)) := by
  refine ⟨rfl, by decide⟩

/-- C7 amended: a validity-guard rejection is a per-document failure: it
leaves that document's store entry unchanged and the batch continues with
exactly the remaining documents. (A codec failure — no parseable timecode —
instead raises and aborts the batch.) -/
theorem batch_guard_skip (cwd : String) (d g : ℚ) (st : Store) (f : String)
    (fs : List String) (data w : List Char) (ws : List (List Char)) (ms1 : ℕ)
    (hst : st (resolve cwd f) = some data) (hfind : findall data = w :: ws)
    (hparse : parse_timecode w = some ms1) (hneg : (ms1 : ℚ) + d < 0) :
    runBatch cwd d g st (f :: fs) = runBatch cwd d g st fs := by
  have hss : sync_sub cwd d g st f = some st :=
    sync_sub_guard_reject cwd d g st f data w ws ms1 hst hfind hparse hneg
  simp only [runBatch, hss]

/-- C7 amended witness: with delay −2000 both documents are guard-rejected;
skipping the first leaves the batch equal to the batch over the rest. -/
theorem batch_guard_skip_witness :
    runBatch "/w" (-2000) 1 storeD ["a.srt", "b.srt"] =
      runBatch "/w" (-2000) 1 storeD ["b.srt"] :=
  batch_guard_skip "/w" (-2000) 1 storeD "a.srt" ["b.srt"] ("00:00:01,000".toList)
    ("00:00:01,000".toList) [] 1000 (by decide) (by decide) (by decide) (by decide)

/-- C8: declining the confirmation terminates the run with no mutation on
any document: for every working directory, target, delay, growth and store,
the run returns the store unchanged and the apply loop is never entered. -/
theorem decline_no_mutation (cwd : String) (tgt : Target) (d g : ℚ) (st : Store) :
    main_model cwd tgt d g false st = (st, true) := by
  unfold main_model
  cases h : get_sub_files tgt with
  | none => rfl
  | some subs =>
    cases subs with
    | nil => rfl
    | cons f fs => rfl

/-- C10: for a directory target the working set is the extension-filtered
list of bare entry names — the same for any two directory paths, never
joined with the target path — and the apply step resolves each name against
the process working directory: a successful `sync_sub cwd … f` reads
`resolve cwd f` and changes the store at no other path. -/
theorem dir_target_cwd_relative (tgt tgt2 cwd : String) (entries : List String)
    (d g : ℚ) (st st2 : Store) (f k : String)
    (hsync : sync_sub cwd d g st f = some st2) (hk : k ≠ resolve cwd f) :
    get_sub_files (.dir tgt entries) =
      some (entries.filter fun fn => SUPP_SUB_EXTS.contains (extOf fn)) ∧
    get_sub_files (.dir tgt entries) = get_sub_files (.dir tgt2 entries) ∧
    st2 k = st k := by
  refine ⟨rfl, rfl, ?_⟩
  rcases hd : st (resolve cwd f) with _ | data
  · simp only [sync_sub, hd] at hsync
    exact Option.noConfusion hsync
  simp only [sync_sub, hd] at hsync
  rcases hc : syncContent d g data with _ | o
  · simp only [hc] at hsync
    exact Option.noConfusion hsync
  simp only [hc] at hsync
  rcases o with _ | out
  · cases hsync
    rfl
  · cases hsync
    show writeStore st (resolve cwd f) out k = st k
    unfold writeStore
    rw [if_neg hk]

/-- C10 witness: three directory entries with one unsupported file; the
same working set regardless of the directory path; the write after a
successful sync leaves an unrelated path untouched. -/
theorem dir_target_cwd_relative_witness :
    get_sub_files (.dir "subs" ["a.srt", "b.txt", "c.srt"]) =
      some (["a.srt", "b.txt", "c.srt"].filter fun fn => SUPP_SUB_EXTS.contains (extOf fn)) ∧
    get_sub_files (.dir "subs" ["a.srt", "b.txt", "c.srt"]) =
      get_sub_files (.dir "other" ["a.srt", "b.txt", "c.srt"]) ∧
    writeStore storeB "/w/a.srt" ("00:00:00,002 --> 00:00:00,003".toList) "/w/zzz.srt" =
      storeB "/w/zzz.srt" :=
  dir_target_cwd_relative "subs" "other" "/w" ["a.srt", "b.txt", "c.srt"] 1 1 storeB
    (writeStore storeB "/w/a.srt" ("00:00:00,002 --> 00:00:00,003".toList)) "a.srt"
    "/w/zzz.srt" rfl (by decide)

end
